import Mathlib

/-!
Verification of the FREEDM DGI broker substrate against its natural-language
specification.  The definitions below are shallow embeddings of the C++
sources under `Broker/src`: pure control flow is translated to Lean
functions, the side effects of a call (socket writes, dispatcher delivery,
queue updates) are made explicit in the returned values, and exceptional
exits are explicit constructors.  File and function references in the doc
comments point into the C++ sources.
-/

namespace Freedm

/-! ## Message model (CMessage fields used by the transport layer) -/

/-- Shallow embedding of the CMessage fields read or written by
`CConnection::Send` and `CConnection::Recieve` (CConnection.cpp):
source UUID, source hostname, send timestamp (`none` until
`SetSendTimestampNow` runs; timestamps are abstracted to naturals),
and the protocol selector string. -/
structure CMessage where
  srcUUID : String
  srcHostname : String
  sendTimestamp : Option Nat
  protocol : String
  deriving DecidableEq, Repr

/-- Identifier of the sequenced reliable protocol,
`CSRConnection::Identifier()` in CSRConnection.hpp: the string "SRC". -/
def srcIdent : String := "SRC"

/-- Identifier of the best-effort protocol `CSUConnection::Identifier()`.
Modelled from the spec: CSUConnection.hpp is not part of the sources at
hand; the spec fixes the protocol selectors to SRC, SUC and SRSW. -/
def sucIdent : String := "SUC"

/-- Identifier of the sliding-window protocol `CSRSWConnection::Identifier()`.
Modelled from the spec: CSRSWConnection.hpp is not part of the sources at
hand; the spec fixes the protocol selectors to SRC, SUC and SRSW. -/
def srswIdent : String := "SRSW"

/-- Keys of the protocol map `m_protocols` populated by the constructor
`CConnection::CConnection` (CConnection.cpp lines 65 to 77): one protocol
engine per identifier.  The member `m_defaultprotocol` is set to the SRC
identifier there. -/
def registeredProtocols : List String := [sucIdent, srcIdent, srswIdent]

/-- Observable effect of one call to `CConnection::Send`: either the
message was handed synchronously to the dispatcher
(`GetDispatcher().HandleRequest`), or it was handed to the protocol
engine registered under the given identifier (which owns all socket
writes). -/
inductive SendEffect where
  | dispatched (m : CMessage)
  | protocolSend (proto : String) (m : CMessage)
  deriving DecidableEq, Repr

/-- Shallow embedding of `CConnection::Send` (CConnection.cpp lines 142
to 168).  `destUUID` is the UUID the connection was constructed with
(`GetUUID()`), `localUUID` and `localHostname` come from the connection
manager, and `now` stands for the wall clock read by
`SetSendTimestampNow`.  When the destination equals the local UUID the
message is stamped and delivered directly to the dispatcher; otherwise
the protocol map is consulted and, when the selector is unknown, the
default protocol (SRC) is used. -/
def CConnection.Send (localUUID localHostname destUUID : String) (now : Nat)
    (msg : CMessage) : SendEffect :=
  if destUUID = localUUID then
    .dispatched { msg with
      srcUUID := localUUID
      srcHostname := localHostname
      sendTimestamp := some now }
  else if msg.protocol ∈ registeredProtocols then
    .protocolSend msg.protocol msg
  else
    .protocolSend srcIdent msg

/-- Shallow embedding of `CConnection::Recieve` (CConnection.cpp lines
199 to 213).  The per-protocol acceptance decision
(`IProtocol::Recieve`) is abstracted by the predicate `accept`; the
function returns whether the message was delivered and whether an ACK
was sent (`SendACK` runs exactly when the protocol accepted). -/
def CConnection.Recieve (accept : String → Bool) (msg : CMessage) :
    Bool × Bool :=
  if msg.protocol ∈ registeredProtocols then
    if accept msg.protocol then (true, true) else (false, false)
  else (false, false)

/-! ## IProtocol::Write and the packet size bound -/

/-- The constant `CReliableConnection::MAX_PACKET_SIZE`
(CReliableConnection.hpp line 79). -/
def MAX_PACKET_SIZE : Nat := 60000

/-- Outcome of `IProtocol::Write` (IProtocol.cpp lines 42 to 100):
`noop` when the protocol is stopped, `tooLong` when the length check
throws `std::runtime_error` (before any socket access), and
`sent len` when `len` bytes are written to the socket. -/
inductive WriteResult where
  | noop
  | tooLong
  | sent (len : Nat)
  deriving DecidableEq, Repr

/-- Shallow embedding of `IProtocol::Write` (IProtocol.cpp lines 42 to
100), in terms of the serialised length `rawLen` of the message
(`msg.Save` output).  The size check `raw.length() > MAX_PACKET_SIZE`
runs before the buffer copy and the socket send. -/
def IProtocol.Write (stopped : Bool) (rawLen : Nat) : WriteResult :=
  if stopped then .noop
  else if rawLen > MAX_PACKET_SIZE then .tooLong
  else .sent rawLen

/-! ## Scheduler state (CBroker) -/

/-- Association-list lookup of a module's ready queue, mirroring
`m_ready[m]` (a `std::map` access that yields an empty deque for an
absent key).  Tasks are abstracted to natural-number identifiers. -/
def qlookup : List (String × List Nat) → String → List Nat
  | [], _ => []
  | (k, q) :: rest, m => if k = m then q else qlookup rest m

/-- Replacement of a module's ready queue in the association list,
mirroring assignment through `m_ready[m]`. -/
def qstore : List (String × List Nat) → String → List Nat →
    List (String × List Nat)
  | [], m, q => [(m, q)]
  | (k, q0) :: rest, m, q =>
    if k = m then (k, q) :: rest else (k, q0) :: qstore rest m q

/-- The scheduler fields of CBroker touched by `Worker`,
`RegisterModule` and the two `Schedule` overloads (CBroker.cpp):
`m_modules` (ordered module list with phase durations in
milliseconds), `m_phase`, `m_ready` and `m_busy`. -/
structure BrokerState where
  modules : List (String × Nat)
  phase : Nat
  ready : List (String × List Nat)
  busy : Bool
  deriving DecidableEq, Repr

/-- Identifier of the module owning the current phase:
`m_modules[m_phase].first`, defined when `m_phase` is in range. -/
def activeModule (s : BrokerState) : Option String :=
  (s.modules[s.phase]?).map Prod.fst

/-- Shallow embedding of `CBroker::Worker` (CBroker.cpp lines 496 to
528).  When `m_phase` is out of range the worker clears `m_busy` and
returns at once.  Otherwise it pops the front task of the active
module's ready queue (setting `m_busy`) and executes it; the popped
task is returned alongside the new state (`none` when the queue was
empty, in which case `m_busy` is cleared). -/
def CBroker.Worker (s : BrokerState) : BrokerState × Option Nat :=
  if h : s.phase < s.modules.length then
    let active := (s.modules[s.phase]).1
    match qlookup s.ready active with
    | [] => ({ s with busy := false }, none)
    | x :: rest =>
      ({ s with busy := true, ready := qstore s.ready active rest }, some x)
  else ({ s with busy := false }, none)

/-- Shallow embedding of `CBroker::RegisterModule` (CBroker.cpp lines
217 to 241).  The linear scan over `m_modules` skips registration when
the identifier is already present; otherwise the pair is appended, and
`ChangePhase` is invoked immediately exactly when the new list has
size one.  The returned boolean records whether that immediate
`ChangePhase` call happened. -/
def CBroker.RegisterModule (s : BrokerState) (m : String) (dur : Nat) :
    BrokerState × Bool :=
  if m ∈ s.modules.map Prod.fst then (s, false)
  else
    let mods := s.modules ++ [(m, dur)]
    ({ s with modules := mods }, mods.length = 1)

/-- Folding `RegisterModule` over a sequence of registration requests. -/
def registerAll (s : BrokerState) : List (String × Nat) → BrokerState
  | [] => s
  | (m, d) :: rest => registerAll (CBroker.RegisterModule s m d).1 rest

/-! ## Phase alignment arithmetic (CBroker::ChangePhase) -/

/-- The phase-search loop of `CBroker::ChangePhase` (CBroker.cpp lines
368 to 380): starting from `cphase = 0` and `tmp = durations[0]`, while
`cphase < size` and `tmp < intoround`, increment `cphase` and add
`durations[cphase]` to `tmp`.  The walk consumes the durations after
position `cphase`; in the final step past the end of the list the C++
loop would read out of bounds, which cannot happen when
`intoround < total` (the only way the function is reached), and the
model adds zero there. -/
def cphaseWalk (intoround : Nat) : List Nat → Nat → Nat → Nat × Nat
  | [], cphase, tmp =>
    if tmp < intoround then (cphase + 1, tmp) else (cphase, tmp)
  | d :: rest, cphase, tmp =>
    if tmp < intoround then cphaseWalk intoround rest (cphase + 1) (tmp + d)
    else (cphase, tmp)

/-- The pair `(cphase, tmp)` computed by `CBroker::ChangePhase` from the
duration list and the milliseconds into the current round. -/
def computePhase (durs : List Nat) (intoround : Nat) : Nat × Nat :=
  match durs with
  | [] => (0, 0)
  | d0 :: rest => cphaseWalk intoround rest 0 d0

/-- The alignment step of `CBroker::ChangePhase` (CBroker.cpp lines 361
to 396): `round` is the sum of all registered phase durations,
`intoround = millis % round` where `millis` is the local wall-clock
milliseconds with the clock skew added, and on alignment the scheduler
jumps to `cphase` and schedules the next phase change after
`remaining = tmp - intoround` milliseconds.  The result is the pair
`(cphase, remaining)`. -/
def alignPhase (mods : List (String × Nat)) (millis : Nat) : Nat × Nat :=
  let durs := mods.map Prod.snd
  let intoround := millis % durs.sum
  let w := computePhase durs intoround
  (w.1, w.2 - intoround)

/-- Cumulative duration of modules `0..k`: the sum of the first `k + 1`
durations.  This is the quantity the spec's canonical-phase definition
compares against `intoround`. -/
def cumDur (durs : List Nat) (k : Nat) : Nat := (durs.take (k + 1)).sum

/-! ## Next-phase timer lifecycle (CBroker::ChangePhase and
CBroker::ScheduledTask) -/

/-- Error code seen by a scheduled callback: `success` is the
default-constructed `boost::system::error_code` (no error), `aborted`
is `operation_aborted` as produced by `deadline_timer::cancel`. -/
inductive ErrCode where
  | success
  | aborted
  deriving DecidableEq, Repr

/-- State of one allocated timer handle owned by module `m`, as
maintained across `CBroker::Schedule`, `CBroker::ChangePhase` (lines
401 to 420) and `CBroker::ScheduledTask` (lines 459 to 485):
`nexttime` is `m_nexttime[h]`, `ntexpired` is `m_ntexpired[h]`,
`waiting` records an outstanding `async_wait` on the deadline timer,
`cancelPending` records a handler invocation queued by `cancel()` with
the `operation_aborted` code, and `delivered` lists the error codes of
the callbacks pushed onto the owner's ready queue so far. -/
structure TimerState where
  nexttime : Bool
  ntexpired : Bool
  waiting : Bool
  cancelPending : Bool
  delivered : List ErrCode
  deriving DecidableEq, Repr

/-- Events driving one timer handle: a phase change whose outgoing
module is the timer's owner, a phase change not involving the owner,
and the asio invocation of a handler queued by `cancel()`. -/
inductive TimerEv where
  | phaseChangeAway
  | phaseChangeOther
  | fireCancelled
  deriving DecidableEq, Repr

/-- The body of `CBroker::ScheduledTask` (CBroker.cpp lines 459 to 485)
applied when the handler fires with error code `err`: when
`m_ntexpired[h]` is set it is cleared and the synthesised
default error code is delivered instead of `err`; the bound callback
is pushed onto the owner's ready queue, recorded here in `delivered`. -/
def scheduledTaskFire (s : TimerState) (err : ErrCode) : TimerState :=
  if s.ntexpired then
    { s with ntexpired := false, delivered := s.delivered ++ [.success] }
  else
    { s with delivered := s.delivered ++ [err] }

/-- One event step of the timer lifecycle.  On a phase change away from
the owner with `m_nexttime[h]` set, `ChangePhase` cancels the timer
(turning the outstanding wait into a pending aborted invocation),
clears `m_nexttime[h]` and sets `m_ntexpired[h]`.  A pending aborted
invocation is consumed by `ScheduledTask` with the aborted code.
Events whose precondition does not hold leave the state unchanged. -/
def timerStep (s : TimerState) : TimerEv → TimerState
  | .phaseChangeAway =>
    if s.nexttime then
      { s with nexttime := false, ntexpired := true,
               waiting := false, cancelPending := s.waiting }
    else s
  | .phaseChangeOther => s
  | .fireCancelled =>
    if s.cancelPending then
      scheduledTaskFire { s with cancelPending := false } .aborted
    else s

/-- Iterated timer steps. -/
def timerRun (s : TimerState) : List TimerEv → TimerState
  | [] => s
  | e :: evs => timerRun (timerStep s e) evs

/-- The timer state right after `CBroker::Schedule` is called with the
`not_a_date_time` wait (CBroker.cpp lines 280 to 299): `m_nexttime[h]`
set, deadline set to positive infinity (so the wait never expires
naturally), handler armed through `async_wait`. -/
def timerInit : TimerState :=
  { nexttime := true, ntexpired := false, waiting := true,
    cancelPending := false, delivered := [] }

/-! ## Dispatcher handler lookup (IReadHandler) -/

/-- Outcome of `IReadHandler::HandleRead` (IHandler.cpp lines 62 to 98)
for a message that got past the peer-record prelude: an
`EUnhandledMessage` throw when the message names no handler, the
invocation of the functor registered under `key` when the scan finds a
match, or a warning log followed by a silent drop. -/
inductive HandleResult where
  | emptyHandlerError
  | handled (key : String) (f : Nat)
  | dropped
  deriving DecidableEq, Repr

/-- Shallow embedding of the handler-selection part of
`IReadHandler::HandleRead` (IHandler.cpp lines 83 to 97) over the
subhandler list built by `RegisterSubhandle` (lines 51 to 54, a plain
`push_back`, so registration order is preserved).  Functors are
abstracted to natural-number identifiers.  The scan takes the first
entry whose key is "any" or equals the message's handler key. -/
def IReadHandler.HandleRead (handlers : List (String × Nat))
    (msgHandler : String) : HandleResult :=
  if msgHandler = "" then .emptyHandlerError
  else
    match handlers.find? (fun f => f.1 == "any" || msgHandler == f.1) with
    | some f => .handled f.1 f.2
    | none => .dropped

/-! ## Timings configuration (CTimings::SetTimings) -/

/-- The timing keys recognised by `CTimings::SetTimings`
(CTimings.cpp), in the order of the `try`/`catch` assignment chain
(lines 226 to 444); the option-registration block (lines 77 to 207)
declares the same keys. -/
def timingKeys : List String :=
  ["GM_AYC_RESPONSE_TIMEOUT", "GM_PREMERGE_MAX_TIMEOUT",
   "GM_INVITE_RESPONSE_TIMEOUT", "GM_CHECK_TIMEOUT", "LB_PHASE_TIME",
   "CSUC_RESEND_TIME", "DEV_PNP_HEARTBEAT", "GM_GLOBAL_TIMEOUT",
   "DEV_RTDS_DELAY", "LB_REQUEST_TIMEOUT", "GM_AYT_RESPONSE_TIMEOUT",
   "GM_PHASE_TIME", "GM_FID_TIMEOUT", "SC_PHASE_TIME",
   "CS_EXCHANGE_TIME", "DEV_SOCKET_TIMEOUT", "LB_ROUND_TIME",
   "CSRC_DEFAULT_TIMEOUT", "GM_PREMERGE_MIN_TIMEOUT",
   "GM_TIMEOUT_TIMEOUT", "CSRC_RESEND_TIME", "GM_PREMERGE_GRANULARITY"]

/-- Decimal parse of an option value as `unsigned int`, the validation
`boost::program_options` applies to each `po::value<unsigned int>()`
entry while `parse_config_file` runs: a nonempty all-digit string. -/
def parseUInt (s : String) : Option Nat :=
  if s.length ≠ 0 ∧ s.data.all Char.isDigit then
    some (s.data.foldl (fun a c => a * 10 + (c.toNat - 48)) 0)
  else none

/-- Association-list lookup for parsed timing values. -/
def tlookup : List (String × Nat) → String → Option Nat
  | [], _ => none
  | (k, v) :: rest, key => if k = key then some v else tlookup rest key

/-- The `po::store(parse_config_file(...))` stage of
`CTimings::SetTimings` (CTimings.cpp line 219) over the timings file
seen as a key/value list: each entry must name a registered key and
carry a value parsing as an unsigned integer, otherwise the parse
throws an error naming the offending key.  Duplicate keys and numeric
overflow are outside the behaviour the claims exercise and are not
modelled. -/
def storeTimings : List (String × String) → Except String (List (String × Nat))
  | [] => .ok []
  | (k, v) :: rest =>
    if k ∈ timingKeys then
      match parseUInt v with
      | some n =>
        match storeTimings rest with
        | .ok m => .ok ((k, n) :: m)
        | .error e => .error e
      | none => .error ("the argument for option " ++ k ++ " is invalid")
    else .error ("unrecognised option " ++ k)

/-- The message of the `EDgiConfigError` thrown when a timing key is
absent (CTimings.cpp, each `catch` block). -/
def missingMsg (k : String) : String :=
  k ++ " is missing, please check your timings config"

/-- The `try`/`catch` assignment chain of `CTimings::SetTimings`
(CTimings.cpp lines 226 to 444): the keys are read from the variables
map in the fixed order of `timingKeys`; the first absent key raises an
`EDgiConfigError` naming it, and otherwise every timing global is
assigned its parsed value, recorded here as the key/value list of the
assignments performed. -/
def assignTimings (m : List (String × Nat)) :
    List String → Except String (List (String × Nat))
  | [] => .ok []
  | k :: ks =>
    match tlookup m k with
    | none => .error (missingMsg k)
    | some v =>
      match assignTimings m ks with
      | .ok rest => .ok ((k, v) :: rest)
      | .error e => .error e

/-- Shallow embedding of `CTimings::SetTimings` (CTimings.cpp lines 69
to 447) on an already-opened timings file presented as a key/value
list: the parse/store stage followed by the assignment chain. -/
def CTimings.SetTimings (file : List (String × String)) :
    Except String (List (String × Nat)) :=
  match storeTimings file with
  | .ok m => assignTimings m timingKeys
  | .error e => .error e

/-! ## Process exit codes (PosixMain main) -/

/-- The control-flow outcomes of `main` (PosixMain.cpp lines 71 to
349) that decide the process exit code: the main configuration file
failing to open (line 171 to 176), one of the utility modes
(`--help`, `--generateuuid`/`--uuid`, `--version`, `--list-loggers`),
an exception thrown anywhere inside the big `try` block after the
config check (a bad configuration value, a failure to bind the
listening socket in the CBroker constructor, or any other
`std::exception`), and `broker.Run()` returning after a SIGINT-driven
clean shutdown. -/
inductive StartupOutcome where
  | configFileMissing
  | helpMode
  | uuidMode
  | versionMode
  | listLoggersMode
  | startupException
  | runClean
  deriving DecidableEq, Repr

/-- The exit code of `main` (PosixMain.cpp) for each outcome: `-1` is
returned only when the main config file cannot be opened (line 175);
the utility modes return 0; every exception reaching the
`catch (std::exception&)` at line 343 is logged and control falls
through to the final `return 0` (line 348), as does a clean
`broker.Run()` exit. -/
def mainExitCode : StartupOutcome → Int
  | .configFileMissing => -1
  | .helpMode => 0
  | .uuidMode => 0
  | .versionMode => 0
  | .listLoggersMode => 0
  | .startupException => 0
  | .runClean => 0

/-! ## Helper lemmas -/

theorem qlookup_qstore_self (l : List (String × List Nat)) (k : String)
    (q : List Nat) : qlookup (qstore l k q) k = q := by
  induction l with
  | nil => simp [qstore, qlookup]
  | cons p rest ih =>
    by_cases h : p.1 = k
    · simp [qstore, qlookup, h]
    · simp [qstore, qlookup, h, ih]

theorem qlookup_qstore_ne (l : List (String × List Nat)) (k m : String)
    (q : List Nat) (h : m ≠ k) : qlookup (qstore l k q) m = qlookup l m := by
  have hkm : ¬ k = m := fun e => h e.symm
  induction l with
  | nil => simp [qstore, qlookup, hkm]
  | cons p rest ih =>
    by_cases hp : p.1 = k
    · subst hp
      simp [qstore, qlookup, hkm]
    · by_cases hm : p.1 = m
      · simp [qstore, qlookup, hp, hm, hkm, h]
      · simp [qstore, qlookup, hp, hm, ih]

/-! ## C5: self-send delivers synchronously to the dispatcher -/

/-- C5: For every message whose destination peer id equals the local
peer id, `CConnection::Send` delivers the message directly to the
dispatcher in the same call, with the source UUID set to the local
UUID, the source hostname and send timestamp set, and no protocol
engine invoked (hence nothing written to the socket). -/
theorem send_self_delivers_locally (localUUID localHostname destUUID : String)
    (now : Nat) (msg : CMessage) (h : destUUID = localUUID) :
    CConnection.Send localUUID localHostname destUUID now msg =
      .dispatched { msg with
        srcUUID := localUUID
        srcHostname := localHostname
        sendTimestamp := some now } ∧
    ∀ proto m, CConnection.Send localUUID localHostname destUUID now msg ≠
      .protocolSend proto m := by
  constructor
  · simp [CConnection.Send, h]
  · intro proto m
    simp [CConnection.Send, h]

theorem send_self_delivers_locally_witness :
    CConnection.Send "nodeA" "hostA" "nodeA" 42
        { srcUUID := "", srcHostname := "", sendTimestamp := none,
          protocol := "SRC" } =
      .dispatched { srcUUID := "nodeA", srcHostname := "hostA",
                    sendTimestamp := some 42, protocol := "SRC" } :=
  (send_self_delivers_locally "nodeA" "hostA" "nodeA" 42
    { srcUUID := "", srcHostname := "", sendTimestamp := none,
      protocol := "SRC" } rfl).1

/-! ## C6: IProtocol::Write never sends more than MAX_PACKET_SIZE -/

/-- C6: `IProtocol::Write` never transmits a datagram larger than
60000 bytes: every message actually written to the socket has length
at most `MAX_PACKET_SIZE`; when the protocol is not stopped, a
serialised length over the bound throws before any socket write
(`tooLong`), and a length within the bound passes the size check and
is sent. -/
theorem write_respects_packet_bound (stopped : Bool) (rawLen : Nat) :
    (∀ l, IProtocol.Write stopped rawLen = .sent l → l ≤ MAX_PACKET_SIZE) ∧
    (stopped = false → MAX_PACKET_SIZE < rawLen →
      IProtocol.Write stopped rawLen = .tooLong) ∧
    (stopped = false → rawLen ≤ MAX_PACKET_SIZE →
      IProtocol.Write stopped rawLen = .sent rawLen) := by
  refine ⟨?_, ?_, ?_⟩
  · intro l hl
    by_cases hs : stopped
    · simp [IProtocol.Write, hs] at hl
    · by_cases hb : rawLen > MAX_PACKET_SIZE
      · simp [IProtocol.Write, hs, hb] at hl
      · simp [IProtocol.Write, hs, hb] at hl
        omega
  · intro hs hb
    simp [IProtocol.Write, hs, hb]
  · intro hs hb
    simp [IProtocol.Write, hs, Nat.not_lt.mpr hb]

theorem write_respects_packet_bound_witness :
    IProtocol.Write false 60001 = .tooLong ∧
    IProtocol.Write false 60000 = .sent 60000 :=
  ⟨(write_respects_packet_bound false 60001).2.1 rfl (by decide),
   (write_respects_packet_bound false 60000).2.2 rfl (by decide)⟩

/-! ## C8: exit codes of main (PosixMain.cpp) -/

/-- C8 (divergence witness): `main` returns 0 after a startup failure
that throws past the config-file check, because the
`catch (std::exception&)` at PosixMain.cpp line 343 only logs the
error and falls through to `return 0` at line 348.  Only the missing
main config file returns a non-zero code; a clean SIGINT shutdown
returns 0 as the claim states. -/
theorem main_exit_code_startup_exception :
    mainExitCode .startupException = 0 ∧
    mainExitCode .configFileMissing = -1 ∧
    mainExitCode .runClean = 0 :=
  ⟨rfl, rfl, rfl⟩

/-! ## C10: unknown protocol selectors -/

/-- C10: an outbound message with an unknown protocol selector is not
dropped: `CConnection::Send` falls back to the default protocol (SRC)
and sends the message through it unchanged, while an inbound message
with an unknown selector is neither delivered nor acknowledged
(`Recieve` returns false, regardless of how the registered protocol
engines would judge it). -/
theorem send_unknown_protocol_falls_back (localUUID localHostname
    destUUID : String) (now : Nat) (msg : CMessage) (accept : String → Bool)
    (hdest : destUUID ≠ localUUID)
    (hproto : msg.protocol ∉ registeredProtocols) :
    CConnection.Send localUUID localHostname destUUID now msg =
      .protocolSend srcIdent msg ∧
    CConnection.Recieve accept msg = (false, false) := by
  constructor
  · simp [CConnection.Send, hdest, hproto]
  · simp [CConnection.Recieve, hproto]

theorem send_unknown_protocol_falls_back_witness :
    CConnection.Send "nodeA" "hostA" "nodeB" 0
        { srcUUID := "", srcHostname := "", sendTimestamp := none,
          protocol := "BOGUS" } =
      .protocolSend srcIdent
        { srcUUID := "", srcHostname := "", sendTimestamp := none,
          protocol := "BOGUS" } ∧
    CConnection.Recieve (fun _ => true)
        { srcUUID := "", srcHostname := "", sendTimestamp := none,
          protocol := "BOGUS" } = (false, false) :=
  send_unknown_protocol_falls_back "nodeA" "hostA" "nodeB" 0
    { srcUUID := "", srcHostname := "", sendTimestamp := none,
      protocol := "BOGUS" } (fun _ => true) (by decide) (by decide)

/-! ## C1: the worker serves only the active module's queue -/

/-- C1: `CBroker::Worker` pops tasks exclusively from the ready queue
of the module at position `m_phase`: when `m_phase` is out of range it
clears `m_busy` and returns at once; any task it executes is the front
of the active module's queue (which it pops); and the ready queue of
every non-active module is left untouched, so no task of a non-active
module ever runs. -/
theorem worker_pops_active_queue_only (s : BrokerState) :
    (activeModule s = none →
      CBroker.Worker s = ({ s with busy := false }, none)) ∧
    (∀ t, (CBroker.Worker s).2 = some t →
      ∃ a rest, activeModule s = some a ∧ qlookup s.ready a = t :: rest ∧
        qlookup (CBroker.Worker s).1.ready a = rest) ∧
    (∀ m, activeModule s ≠ some m →
      qlookup (CBroker.Worker s).1.ready m = qlookup s.ready m) := by
  by_cases h : s.phase < s.modules.length
  · have hact : activeModule s = some (s.modules[s.phase]).1 := by
      simp [activeModule, List.getElem?_eq_getElem h]
    refine ⟨?_, ?_, ?_⟩
    · intro hnone
      rw [hact] at hnone
      simp at hnone
    · intro t ht
      cases hq : qlookup s.ready (s.modules[s.phase]).1 with
      | nil =>
        simp [CBroker.Worker, h, hq] at ht
      | cons x rest =>
        simp [CBroker.Worker, h, hq] at ht
        subst ht
        refine ⟨(s.modules[s.phase]).1, rest, hact, hq, ?_⟩
        simp [CBroker.Worker, h, hq, qlookup_qstore_self]
    · intro m hm
      have hne : m ≠ (s.modules[s.phase]).1 := by
        intro e
        apply hm
        rw [hact, e]
      cases hq : qlookup s.ready (s.modules[s.phase]).1 with
      | nil =>
        simp [CBroker.Worker, h, hq]
      | cons x rest =>
        simp [CBroker.Worker, h, hq, qlookup_qstore_ne _ _ _ _ hne]
  · refine ⟨?_, ?_, ?_⟩
    · intro _
      simp [CBroker.Worker, h]
    · intro t ht
      simp [CBroker.Worker, h] at ht
    · intro m _
      simp [CBroker.Worker, h]

theorem worker_pops_active_queue_only_witness :
    (CBroker.Worker
      { modules := [("gm", 400), ("sc", 400)], phase := 0,
        ready := [("gm", [7, 8]), ("sc", [9])], busy := false }).2 = some 7 ∧
    qlookup (CBroker.Worker
      { modules := [("gm", 400), ("sc", 400)], phase := 0,
        ready := [("gm", [7, 8]), ("sc", [9])], busy := false }).1.ready
      "sc" = [9] := by
  have h := worker_pops_active_queue_only
    { modules := [("gm", 400), ("sc", 400)], phase := 0,
      ready := [("gm", [7, 8]), ("sc", [9])], busy := false }
  exact ⟨by decide, h.2.2 "sc" (by decide)⟩

/-! ## C9: RegisterModule is idempotent on the module list -/

/-- C9: registering a module identifier that is already present leaves
the broker state unchanged and triggers no phase change, so under any
sequence of registrations each identifier occupies at most one phase
slot (the identifier list stays duplicate-free); the immediate
`ChangePhase` call fires exactly on the very first successful
registration (the module list was empty and the identifier is new). -/
theorem registermodule_idempotent :
    (∀ s m d, m ∈ s.modules.map Prod.fst →
      CBroker.RegisterModule s m d = (s, false)) ∧
    (∀ s m d, (CBroker.RegisterModule s m d).2 = true ↔
      (m ∉ s.modules.map Prod.fst ∧ s.modules = [])) ∧
    (∀ s regs, (s.modules.map Prod.fst).Nodup →
      ((registerAll s regs).modules.map Prod.fst).Nodup) := by
  have hstep : ∀ s m d, (s.modules.map Prod.fst).Nodup →
      (((CBroker.RegisterModule s m d).1.modules.map Prod.fst)).Nodup := by
    intro s m d hnd
    unfold CBroker.RegisterModule
    by_cases hm : m ∈ s.modules.map Prod.fst
    · simpa [hm] using hnd
    · simp [hm, List.nodup_append, hnd]
  refine ⟨?_, ?_, ?_⟩
  · intro s m d hm
    simp [CBroker.RegisterModule, hm]
  · intro s m d
    by_cases hm : m ∈ s.modules.map Prod.fst
    · simp [CBroker.RegisterModule, hm]
    · simp [CBroker.RegisterModule, hm]
  · intro s regs
    induction regs generalizing s with
    | nil =>
      intro h
      exact h
    | cons r rest ih =>
      intro h
      exact ih _ (hstep s r.1 r.2 h)

theorem registermodule_idempotent_witness :
    CBroker.RegisterModule
      { modules := [("gm", 400)], phase := 0, ready := [], busy := false }
      "gm" 999 =
      ({ modules := [("gm", 400)], phase := 0, ready := [], busy := false },
        false) :=
  registermodule_idempotent.1
    { modules := [("gm", 400)], phase := 0, ready := [], busy := false }
    "gm" 999 (by decide)

/-! ## C3: next-phase timers fire exactly once at the phase change -/

/-- The timer state right after `CBroker::ChangePhase` has processed a
phase change away from the owner: the wait is cancelled, the pending
aborted invocation is queued, `m_nexttime` is cleared and
`m_ntexpired` is set. -/
def timerCancelled : TimerState :=
  { nexttime := false, ntexpired := true, waiting := false,
    cancelPending := true, delivered := [] }

/-- The timer state after `CBroker::ScheduledTask` has consumed the
aborted invocation: the callback was delivered once with the
synthesised success code. -/
def timerDone : TimerState :=
  { nexttime := false, ntexpired := false, waiting := false,
    cancelPending := false, delivered := [ErrCode.success] }

theorem timerRun_append (s : TimerState) (l₁ l₂ : List TimerEv) :
    timerRun s (l₁ ++ l₂) = timerRun (timerRun s l₁) l₂ := by
  induction l₁ generalizing s with
  | nil => rfl
  | cons e rest ih => simp [timerRun, ih]

theorem timerStep_reachable (s : TimerState) (e : TimerEv)
    (h : s = timerInit ∨ s = timerCancelled ∨ s = timerDone) :
    timerStep s e = timerInit ∨ timerStep s e = timerCancelled ∨
      timerStep s e = timerDone := by
  rcases h with h | h | h <;> subst h <;> cases e <;>
    simp [timerStep, timerInit, timerCancelled, timerDone,
      scheduledTaskFire]

theorem timerRun_reachable (evs : List TimerEv) :
    timerRun timerInit evs = timerInit ∨
    timerRun timerInit evs = timerCancelled ∨
    timerRun timerInit evs = timerDone := by
  have main : ∀ (l : List TimerEv) (s : TimerState),
      (s = timerInit ∨ s = timerCancelled ∨ s = timerDone) →
      (timerRun s l = timerInit ∨ timerRun s l = timerCancelled ∨
        timerRun s l = timerDone) := by
    intro l
    induction l with
    | nil => intro s hs; exact hs
    | cons e rest ih =>
      intro s hs
      exact ih (timerStep s e) (timerStep_reachable s e hs)
  exact main evs timerInit (Or.inl rfl)

/-- C3: starting from a timer scheduled with the `not_a_date_time`
wait, across any sequence of phase changes and handler invocations the
callback is delivered at most once and always with the synthesised
success code in place of the cancellation error; right after the phase
change away from the owner, the timer is cancelled and its next-phase
flag cleared; and once the cancelled handler runs, the callback has
been delivered exactly once — further phase changes can never deliver
it again. -/
theorem nextphase_timer_fires_once (evs : List TimerEv) :
    ((timerRun timerInit evs).delivered = [] ∨
      (timerRun timerInit evs).delivered = [ErrCode.success]) ∧
    (timerRun timerInit
        (evs ++ [TimerEv.phaseChangeAway])).nexttime = false ∧
    (timerRun timerInit
        (evs ++ [TimerEv.phaseChangeAway])).waiting = false ∧
    (timerRun timerInit
        (evs ++ [TimerEv.phaseChangeAway, TimerEv.fireCancelled])).delivered
      = [ErrCode.success] := by
  rcases timerRun_reachable evs with h | h | h <;>
    refine ⟨?_, ?_, ?_, ?_⟩ <;>
      simp only [timerRun_append, h] <;> decide

/-! ## C4: dispatcher handler selection -/

/-- C4 (counterexample): with an "any" handler registered before an
exact handler for kind "k", `IReadHandler::HandleRead` invokes the
"any" handler, not the exact one — the claim that the exact kind is
always looked up first fails. -/
theorem handleread_any_can_preempt_exact :
    IReadHandler.HandleRead [("any", 1), ("k", 2)] "k" = .handled "any" 1 ∧
    IReadHandler.HandleRead [("any", 1), ("k", 2)] "k" ≠ .handled "k" 2 := by
  decide

/-- C4 (amended): `IReadHandler::HandleRead` scans the handlers in
registration order and invokes the first whose key is "any" or equals
the message's kind — an exact handler wins only when registered before
the "any" handler; if no registered key matches, the message is
dropped after a warning log, without raising any error. -/
theorem handleread_first_match (hs : List (String × Nat)) (k : String)
    (hk : k ≠ "") :
    (∀ key f, IReadHandler.HandleRead hs k = .handled key f →
      (key = "any" ∨ key = k) ∧
      ∃ l₁ l₂, hs = l₁ ++ (key, f) :: l₂ ∧
        ∀ p ∈ l₁, p.1 ≠ "any" ∧ p.1 ≠ k) ∧
    ((∀ p ∈ hs, p.1 ≠ "any" ∧ p.1 ≠ k) →
      IReadHandler.HandleRead hs k = .dropped) := by
  induction hs with
  | nil =>
    constructor
    · intro key f hf
      simp [IReadHandler.HandleRead, hk, List.find?] at hf
    · intro _
      simp [IReadHandler.HandleRead, hk, List.find?]
  | cons p rest ih =>
    by_cases hp : (p.1 == "any" || k == p.1) = true
    · constructor
      · intro key f hf
        simp [IReadHandler.HandleRead, hk, List.find?, hp] at hf
        rcases hf with ⟨hkey, hfv⟩
        subst hkey
        subst hfv
        refine ⟨?_, [], rest, rfl, by simp⟩
        rcases Bool.or_eq_true_iff.mp hp with hh | hh
        · exact Or.inl (by simpa using hh)
        · exact Or.inr (by simpa using (eq_of_beq hh).symm)
      · intro hnone
        exfalso
        have hp1 := hnone p (by simp)
        rcases Bool.or_eq_true_iff.mp hp with hh | hh
        · exact hp1.1 (by simpa using hh)
        · exact hp1.2 (by simpa using (eq_of_beq hh).symm)
    · have hrec : IReadHandler.HandleRead (p :: rest) k =
          IReadHandler.HandleRead rest k := by
        simp [IReadHandler.HandleRead, hk, List.find?, hp]
      have hpne : p.1 ≠ "any" ∧ p.1 ≠ k := by
        rw [Bool.or_eq_true_iff] at hp
        push_neg at hp
        constructor
        · intro e
          exact absurd (by simpa using e) (by simpa using hp.1)
        · intro e
          exact absurd (by simpa using e.symm) (by simpa using hp.2)
      constructor
      · intro key f hf
        rw [hrec] at hf
        rcases (ih.1 key f hf) with ⟨hor, l₁, l₂, hsplit, hprev⟩
        refine ⟨hor, p :: l₁, l₂, by rw [hsplit]; simp, ?_⟩
        intro q hq
        rcases List.mem_cons.mp hq with hq | hq
        · exact hq ▸ hpne
        · exact hprev q hq
      · intro hnone
        rw [hrec]
        exact ih.2 fun q hq => hnone q (List.mem_cons_of_mem p hq)

theorem handleread_first_match_witness :
    IReadHandler.HandleRead
      [("gm", 3), ("sc", 4)] "lb" = .dropped :=
  (handleread_first_match [("gm", 3), ("sc", 4)] "lb" (by decide)).2
    (by decide)

/-! ## C2: phase alignment arithmetic -/

theorem cumDur_succ_of_drop (durs : List Nat) (c d : Nat) (rest : List Nat)
    (hdrop : durs.drop (c + 1) = d :: rest) :
    cumDur durs (c + 1) = cumDur durs c + d ∧
      durs.drop (c + 1 + 1) = rest ∧ c + 1 < durs.length := by
  have hlt : c + 1 < durs.length := by
    by_contra hle
    rw [List.drop_eq_nil_iff.mpr (Nat.le_of_not_lt hle)] at hdrop
    cases hdrop
  have hcons := List.drop_eq_getElem_cons (l := durs) (n := c + 1) hlt
  rw [hdrop] at hcons
  injection hcons with h1 h2
  refine ⟨?_, h2.symm, hlt⟩
  unfold cumDur
  rw [List.take_succ, List.getElem?_eq_getElem hlt]
  simp [← h1]

theorem cphaseWalk_spec (durs : List Nat) (v : Nat) (hv : v < durs.sum) :
    ∀ (rest : List Nat) (c t : Nat),
      durs.drop (c + 1) = rest → t = cumDur durs c → c < durs.length →
      (∀ j, j < c → cumDur durs j < v) →
      ((cphaseWalk v rest c t).2 = cumDur durs (cphaseWalk v rest c t).1 ∧
        v ≤ (cphaseWalk v rest c t).2 ∧
        (cphaseWalk v rest c t).1 < durs.length ∧
        ∀ j, j < (cphaseWalk v rest c t).1 → cumDur durs j < v) := by
  intro rest
  induction rest with
  | nil =>
    intro c t hdrop ht hc hj
    have hts : t = durs.sum := by
      rw [ht]
      unfold cumDur
      rw [List.take_of_length_le (List.drop_eq_nil_iff.mp hdrop)]
    have hnlt : ¬ t < v := by omega
    simp only [cphaseWalk, if_neg hnlt]
    exact ⟨ht, by omega, hc, hj⟩
  | cons d rest' ih =>
    intro c t hdrop ht hc hj
    by_cases htv : t < v
    · obtain ⟨hsucc, hdrop', hlt⟩ := cumDur_succ_of_drop durs c d rest' hdrop
      have hnext : t + d = cumDur durs (c + 1) := by
        rw [hsucc, ht]
      have hjnext : ∀ j, j < c + 1 → cumDur durs j < v := by
        intro j hjlt
        rcases Nat.lt_succ_iff_lt_or_eq.mp hjlt with hcase | hcase
        · exact hj j hcase
        · subst hcase
          rw [← ht]
          exact htv
      have ihres := ih (c + 1) (t + d) hdrop' hnext hlt hjnext
      simpa only [cphaseWalk, if_pos htv] using ihres
    · simp only [cphaseWalk, if_neg htv]
      exact ⟨ht, by omega, hc, hj⟩

/-- C2 (counterexample): with modules of durations 100 ms and 200 ms
and a clock reading 100 ms into the round, `CBroker::ChangePhase`
computes phase index 0, whose cumulative duration (100) is not
strictly greater than `intoround` (100) — the canonical phase of the
claim (smallest index with cumulative duration strictly above
`intoround`) would be 1, and the remaining time scheduled is 0 rather
than 200. -/
theorem alignphase_not_strictly_greater :
    (alignPhase [("gm", 100), ("sc", 200)] 100).1 = 0 ∧
    ¬ (100 % 300 <
        cumDur ([("gm", 100), ("sc", 200)].map Prod.snd)
          (alignPhase [("gm", 100), ("sc", 200)] 100).1) ∧
    100 % 300 < cumDur ([("gm", 100), ("sc", 200)].map Prod.snd) 1 := by
  decide

/-- C2 (amended): at every alignment, with `R` the sum of all
registered phase durations and `intoround = millis mod R` (`millis`
being the local wall-clock milliseconds plus clock skew), the phase
index computed by `CBroker::ChangePhase` is the smallest index `k`
such that the cumulative duration of modules `0..k` is greater than
or equal to `intoround` (not strictly greater), and the next phase
transition is scheduled after exactly the cumulative duration through
`k` minus `intoround`. -/
theorem alignphase_least_covering (mods : List (String × Nat)) (millis : Nat)
    (h : 0 < (mods.map Prod.snd).sum) :
    (alignPhase mods millis).1 < (mods.map Prod.snd).length ∧
    millis % (mods.map Prod.snd).sum ≤
      cumDur (mods.map Prod.snd) (alignPhase mods millis).1 ∧
    (∀ j, j < (alignPhase mods millis).1 →
      cumDur (mods.map Prod.snd) j < millis % (mods.map Prod.snd).sum) ∧
    (alignPhase mods millis).2 =
      cumDur (mods.map Prod.snd) (alignPhase mods millis).1 -
        millis % (mods.map Prod.snd).sum := by
  cases hdurs : mods.map Prod.snd with
  | nil =>
    rw [hdurs] at h
    simp at h
  | cons d0 rest =>
    have hv : millis % (mods.map Prod.snd).sum < (mods.map Prod.snd).sum :=
      Nat.mod_lt _ h
    rw [hdurs] at hv
    have hdrop : (d0 :: rest).drop (0 + 1) = rest := by simp
    have ht : d0 = cumDur (d0 :: rest) 0 := by simp [cumDur]
    have hc : 0 < (d0 :: rest).length := by simp
    have hw := cphaseWalk_spec (d0 :: rest) (millis % (d0 :: rest).sum) hv
      rest 0 d0 hdrop ht hc (by omega)
    have halign : alignPhase mods millis =
        ((cphaseWalk (millis % (d0 :: rest).sum) rest 0 d0).1,
         (cphaseWalk (millis % (d0 :: rest).sum) rest 0 d0).2 -
           millis % (d0 :: rest).sum) := by
      simp [alignPhase, computePhase, hdurs]
    rw [halign]
    exact ⟨hw.2.2.1, by rw [← hw.1]; exact hw.2.1, hw.2.2.2,
      by rw [← hw.1]⟩

theorem alignphase_least_covering_witness :
    (alignPhase [("gm", 400), ("sc", 400), ("lb", 400)] 1000).1 = 2 ∧
    (alignPhase [("gm", 400), ("sc", 400), ("lb", 400)] 1000).2 = 200 ∧
    (alignPhase [("gm", 400), ("sc", 400), ("lb", 400)] 1000).2 =
      cumDur ([("gm", 400), ("sc", 400), ("lb", 400)].map Prod.snd)
        (alignPhase [("gm", 400), ("sc", 400), ("lb", 400)] 1000).1 -
        1000 % ([("gm", 400), ("sc", 400), ("lb", 400)].map Prod.snd).sum :=
  ⟨by decide, by decide,
    (alignphase_least_covering [("gm", 400), ("sc", 400), ("lb", 400)] 1000
      (by decide)).2.2.2⟩

/-! ## C7: timings configuration errors -/

theorem assignTimings_ok (m : List (String × Nat)) :
    ∀ ks : List String, (∀ k, k ∈ ks → tlookup m k ≠ none) →
      ∃ out, assignTimings m ks = .ok out ∧ out.map Prod.fst = ks ∧
        ∀ p ∈ out, tlookup m p.1 = some p.2 := by
  intro ks
  induction ks with
  | nil =>
    intro _
    exact ⟨[], rfl, rfl, by simp⟩
  | cons k rest ih =>
    intro hall
    have hk := hall k (by simp)
    cases hlk : tlookup m k with
    | none => exact absurd hlk hk
    | some v =>
      obtain ⟨out, hout, hmap, hvals⟩ :=
        ih fun k' hk' => hall k' (List.mem_cons_of_mem k hk')
      refine ⟨(k, v) :: out, ?_, by simp [hmap], ?_⟩
      · simp [assignTimings, hlk, hout]
      · intro p hp
        rcases List.mem_cons.mp hp with hp | hp
        · subst hp
          exact hlk
        · exact hvals p hp

theorem assignTimings_missing (m : List (String × Nat)) :
    ∀ ks : List String, (∃ k, k ∈ ks ∧ tlookup m k = none) →
      ∃ kf, kf ∈ ks ∧ tlookup m kf = none ∧
        assignTimings m ks = .error (missingMsg kf) := by
  intro ks
  induction ks with
  | nil =>
    intro h
    rcases h with ⟨k, hk, _⟩
    simp at hk
  | cons k rest ih =>
    intro h
    cases hlk : tlookup m k with
    | none =>
      exact ⟨k, by simp, hlk, by simp [assignTimings, hlk]⟩
    | some v =>
      have hrest : ∃ k', k' ∈ rest ∧ tlookup m k' = none := by
        rcases h with ⟨k', hk', hnone⟩
        rcases List.mem_cons.mp hk' with he | he
        · subst he
          rw [hlk] at hnone
          cases hnone
        · exact ⟨k', he, hnone⟩
      obtain ⟨kf, hkf, hnone, herr⟩ := ih hrest
      refine ⟨kf, List.mem_cons_of_mem k hkf, hnone, ?_⟩
      simp [assignTimings, hlk, herr]

theorem storeTimings_bad_value (k v : String) (post : List (String × String)) :
    ∀ pre : List (String × String),
      (∀ p ∈ pre, p.1 ∈ timingKeys ∧ parseUInt p.2 ≠ none) →
      k ∈ timingKeys → parseUInt v = none →
      storeTimings (pre ++ (k, v) :: post) =
        .error ("the argument for option " ++ k ++ " is invalid") := by
  intro pre
  induction pre with
  | nil =>
    intro _ hk hbad
    simp [storeTimings, hk, hbad]
  | cons p pre' ih =>
    intro hpre hk hbad
    have hp := hpre p (by simp)
    cases hparse : parseUInt p.2 with
    | none => exact absurd hparse hp.2
    | some n =>
      have hrec := ih (fun q hq => hpre q (List.mem_cons_of_mem p hq)) hk hbad
      simp [storeTimings, hp.1, hparse, hrec]

set_option maxRecDepth 4000 in
/-- C7 (counterexample): when more than one timing key is missing,
the `EDgiConfigError` thrown by `CTimings::SetTimings` names only the
first missing key of the fixed check order.  With a file defining only
GM_AYC_RESPONSE_TIMEOUT, the key SC_PHASE_TIME is missing, yet the
error thrown names GM_PREMERGE_MAX_TIMEOUT and does not mention
SC_PHASE_TIME anywhere in its message — the claim's "error whose
message names that key" fails for SC_PHASE_TIME. -/
theorem settimings_names_only_first_missing :
    CTimings.SetTimings [("GM_AYC_RESPONSE_TIMEOUT", "5")] =
      .error (missingMsg "GM_PREMERGE_MAX_TIMEOUT") ∧
    tlookup [("GM_AYC_RESPONSE_TIMEOUT", 5)] "SC_PHASE_TIME" = none ∧
    "SC_PHASE_TIME" ∈ timingKeys ∧
    ¬ ("SC_PHASE_TIME".data <:+:
        (missingMsg "GM_PREMERGE_MAX_TIMEOUT").data) :=
  ⟨by rfl, by decide, by decide, by decide⟩

/-- C7: when the parse stage of `CTimings::SetTimings` succeeds with
the value map `m`, a timing key absent from `m` makes `SetTimings`
throw the `EDgiConfigError` naming that key (the first missing key in
the fixed check order; in particular, when it is the only missing key
the error names it exactly); a config entry whose value does not parse
as an unsigned integer makes the parse stage itself throw an error
naming that key; and when every timing key is present with an integer
value, `SetTimings` succeeds and assigns every timing global its value
from the file. -/
theorem settimings_missing_or_bad_key :
    (∀ file m k, storeTimings file = .ok m → k ∈ timingKeys →
      tlookup m k = none →
      (∀ k', k' ∈ timingKeys → tlookup m k' = none → k' = k) →
      CTimings.SetTimings file = .error (missingMsg k)) ∧
    (∀ file m, storeTimings file = .ok m →
      (∃ k, k ∈ timingKeys ∧ tlookup m k = none) →
      ∃ kf, kf ∈ timingKeys ∧ tlookup m kf = none ∧
        CTimings.SetTimings file = .error (missingMsg kf)) ∧
    (∀ pre k v post,
      (∀ p ∈ pre, p.1 ∈ timingKeys ∧ parseUInt p.2 ≠ none) →
      k ∈ timingKeys → parseUInt v = none →
      CTimings.SetTimings (pre ++ (k, v) :: post) =
        .error ("the argument for option " ++ k ++ " is invalid")) ∧
    (∀ file m, storeTimings file = .ok m →
      (∀ k, k ∈ timingKeys → tlookup m k ≠ none) →
      ∃ out, CTimings.SetTimings file = .ok out ∧
        out.map Prod.fst = timingKeys ∧
        ∀ p ∈ out, tlookup m p.1 = some p.2) := by
  refine ⟨?_, ?_, ?_, ?_⟩
  · intro file m k hstore hk hnone huniq
    obtain ⟨kf, hkf, hfnone, herr⟩ :=
      assignTimings_missing m timingKeys ⟨k, hk, hnone⟩
    have hkeq : kf = k := huniq kf hkf hfnone
    subst hkeq
    simp [CTimings.SetTimings, hstore, herr]
  · intro file m hstore hex
    obtain ⟨kf, hkf, hfnone, herr⟩ := assignTimings_missing m timingKeys hex
    exact ⟨kf, hkf, hfnone, by simp [CTimings.SetTimings, hstore, herr]⟩
  · intro pre k v post hpre hk hbad
    have herr := storeTimings_bad_value k v post pre hpre hk hbad
    simp [CTimings.SetTimings, herr]
  · intro file m hstore hall
    obtain ⟨out, hout, hmap, hvals⟩ := assignTimings_ok m timingKeys hall
    exact ⟨out, by simp [CTimings.SetTimings, hstore, hout], hmap, hvals⟩

theorem settimings_missing_or_bad_key_witness :
    CTimings.SetTimings [("GM_PHASE_TIME", "abc")] =
      .error "the argument for option GM_PHASE_TIME is invalid" ∧
    CTimings.SetTimings ((timingKeys.take 21).map (fun k => (k, "7"))) =
      .error (missingMsg "GM_PREMERGE_GRANULARITY") := by
  constructor
  · have happ := settimings_missing_or_bad_key.2.2.1 [] "GM_PHASE_TIME" "abc"
      [] (by simp) (by decide) (by decide)
    simpa using happ
  · exact settimings_missing_or_bad_key.1
      ((timingKeys.take 21).map (fun k => (k, "7")))
      ((timingKeys.take 21).map (fun k => (k, 7)))
      "GM_PREMERGE_GRANULARITY" (by rfl) (by decide) (by decide)
      (by decide)

end Freedm
